import Mathlib

/-!
Verification of the pipeline execution engine and scheduler of the
Machine_learning_ops_pl repository (`src/pipeline_engine.py`,
`src/scheduler.py`, `src/infrastructure/models.py`).

The Python code is shallowly embedded: the persisted rows become Lean
structures, the engine's run loop becomes a recursive function that
additionally records the trace of observable events (database commits of
the run record, step-handler invocations), and the scheduler's trigger
evaluation becomes a Boolean function over a UTC clock model.  Step
handler bodies (`_step_extraction`, `_step_training`, ...) call external
collaborators (databases, mlflow, sklearn); the engine is polymorphic
over their outcome, so they are passed in as an oracle
`exec : Step → Ctx α → Except String (Ctx α)` exactly as the engine's
`_execute_step` dispatch treats them: they either mutate the shared
context or raise.
-/

/-- UTC instant, mirroring `datetime.datetime.utcnow()`.  `day` is the
calendar-date ordinal (what `.date()` compares), and `hour`/`minute` are
what `strftime("%H:%M")` renders; `second` completes the instant so that
`timedelta.total_seconds()` differences are expressible.  The scheduler
code only compares dates, formats HH:MM, and subtracts instants, so no
year/month split is needed. -/
structure DateTime where
  day : Nat
  hour : Nat
  minute : Nat
  second : Nat
deriving Repr, DecidableEq

/-- `(a - b).total_seconds()` for two instants, via the absolute second
count of each instant. -/
def DateTime.totalSeconds (t : DateTime) : Int :=
  ((t.day * 24 + t.hour) * 60 + t.minute) * 60 + t.second

/-- Seconds elapsed from `last` to `now`, as the Python
`(now - last).total_seconds()` (negative when `last` is later). -/
def elapsedSeconds (now last : DateTime) : Int :=
  now.totalSeconds - last.totalSeconds

/-- Zero-padded two-digit rendering used by `strftime`. -/
def pad2 (n : Nat) : String :=
  if n < 10 then "0" ++ toString n else toString n

/-- `now.strftime("%H:%M")`. -/
def DateTime.hhmm (t : DateTime) : String :=
  pad2 t.hour ++ ":" ++ pad2 t.minute

/-- One row of `pipeline_steps` (`infrastructure/models.py`): a named,
typed, ordered step of a pipeline.  `config_json` is the opaque
step-type-specific configuration, kept abstract as its serialized text
since no modelled operation inspects it. -/
structure Step where
  name : String
  step_type : String
  order : Nat
  config_json : String
deriving Repr, DecidableEq

/-- One row of `pipelines` with its steps relationship
(`infrastructure/models.py`).  `schedule_enabled` is the 0/1 integer
column the scheduler filters with `== 1`; `schedule_interval` is the
nullable integer column (seconds once compared against
`total_seconds()`); `schedule_time` is the nullable `"HH:MM"` string.
`description`/`created_at` are omitted: no modelled operation reads
them. -/
structure Pipeline where
  id : Nat
  name : String
  schedule_enabled : Nat
  schedule_time : Option String
  schedule_interval : Option Int
  last_run : Option DateTime
  steps : List Step
deriving Repr, DecidableEq

/-- One row of `pipeline_runs` (`infrastructure/models.py`). -/
structure RunRecord where
  id : Nat
  pipeline_id : Nat
  status : String
  logs : Option String
  created_at : DateTime
  completed_at : Option DateTime
deriving Repr, DecidableEq

/-- The persisted store the engine and scheduler query: the `pipelines`
and `pipeline_runs` tables plus the autoincrement counter that hands out
the next run id on insert. -/
structure DB where
  pipelines : List Pipeline
  runs : List RunRecord
  nextRunId : Nat
deriving Repr, DecidableEq

/-- The run-scoped execution context (`self.context = {}` in
`PipelineEngine.__init__`): a key-value bag threaded through the steps.
Values (dataframes, fitted models, ...) come from external
collaborators and stay abstract as `α`. -/
abbrev Ctx (α : Type) := List (String × α)

/-! ## Scheduler trigger evaluation (`PipelineScheduler._check_schedules`) -/

/-- Interval-mode due test (`scheduler.py` lines 56-67): due when
`last_run` is unset, else when `(now - last_run).total_seconds()` has
reached the interval. -/
def intervalDue (now : DateTime) (last_run : Option DateTime) (interval : Int) : Bool :=
  match last_run with
  | none => true
  | some lr => decide (interval ≤ elapsedSeconds now lr)

/-- Daily-time-mode due test (`scheduler.py` lines 69-79): due when the
wall-clock `HH:MM` equals `schedule_time` and the last run, if any, was
on a strictly earlier calendar date.  The outer `t = ""` guard models the
Python truthiness test `elif pipeline.schedule_time:` on the string
column. -/
def dailyDue (now : DateTime) (p : Pipeline) : Bool :=
  match p.schedule_time with
  | none => false
  | some t =>
    if t = "" then false
    else if t = now.hhmm then
      match p.last_run with
      | none => true
      | some lr => decide (lr.day < now.day)
    else false

/-- The per-pipeline trigger decision of one poll tick
(`_check_schedules` lines 54-81): the interval branch is taken exactly
when `pipeline.schedule_interval and pipeline.schedule_interval > 0` is
truthy, otherwise the daily branch when `schedule_time` is truthy,
otherwise not due. -/
def shouldRun (now : DateTime) (p : Pipeline) : Bool :=
  match p.schedule_interval with
  | some i => if 0 < i then intervalDue now p.last_run i else dailyDue now p
  | none => dailyDue now p

/-- Observable actions of `_trigger_pipeline`, in program order:
`db.add(run_record)`, the `last_run` assignment, `db.commit()`, and the
Celery dispatch `execute_pipeline_task.delay(...)`. -/
inductive SchedEvent where
  | createRun (runId pipelineId : Nat)
  | updateLastRun (pipelineId : Nat) (t : DateTime)
  | commit
  | dispatch (pipelineId runId : Nat)
deriving Repr, DecidableEq

/-- `PipelineScheduler._trigger_pipeline` (`scheduler.py` lines 90-120):
refetch the pipeline; create a `PipelineRun(status="pending")` (its
`created_at` column default evaluates to the insert time) and advance
`last_run`, commit both in the one transaction, then dispatch
`(pipeline id, run id)` to the task queue.  The DB-failure `except`
branch is not modelled: the store here is pure. -/
def triggerPipeline (now : DateTime) (db : DB) (pid : Nat) : DB × List SchedEvent :=
  match db.pipelines.find? (fun q => q.id == pid) with
  | none => (db, [])
  | some p =>
    let rid := db.nextRunId
    let run : RunRecord :=
      { id := rid, pipeline_id := p.id, status := "pending", logs := none,
        created_at := now, completed_at := none }
    let db' : DB :=
      { pipelines := db.pipelines.map
          (fun q => if q.id == pid then { q with last_run := some now } else q),
        runs := db.runs ++ [run],
        nextRunId := rid + 1 }
    (db', [SchedEvent.createRun rid p.id, SchedEvent.updateLastRun p.id now,
           SchedEvent.commit, SchedEvent.dispatch p.id rid])

/-- One poll tick of `_check_schedules`: evaluate every
`schedule_enabled == 1` pipeline against the tick's single `now`, and
trigger each one found due. -/
def checkSchedules (now : DateTime) (db : DB) : DB × List SchedEvent :=
  (db.pipelines.filter (fun p => p.schedule_enabled == 1)).foldl
    (fun acc p =>
      if shouldRun now p then
        let r := triggerPipeline now acc.1 p.id
        (r.1, acc.2 ++ r.2)
      else acc)
    (db, [])

/-! ## Pipeline engine (`PipelineEngine`) -/

/-- One timestamped log line as `PipelineEngine._log` builds it:
`f"[{timestamp}] {message}\n"`. -/
def logLine (ts msg : String) : String :=
  "[" ++ ts ++ "] " ++ msg ++ "\n"

/-- The state of the run record that one `db.commit()` persists: its
`status`, `logs` and `completed_at` columns. -/
structure RunSnapshot where
  status : String
  logs : Option String
  completed_at : Option DateTime
deriving Repr, DecidableEq

/-- Observable events of one `PipelineEngine.run` invocation, in program
order: every `db.commit()` of the run record (with the committed
snapshot) and every step-handler invocation (`_execute_step`, with the
context it receives). -/
inductive EngineEvent (α : Type) where
  | commit (snap : RunSnapshot)
  | invoke (s : Step) (c : Ctx α)
deriving Repr, DecidableEq

/-- Result of the `for step in steps:` loop body of `PipelineEngine.run`
(lines 52-54): the events it emitted, the run record's `logs` text and
the count of `_log` calls so far, and the loop's outcome (`ok` with the
final context, or the exception a handler raised). -/
structure LoopOut (α : Type) where
  events : List (EngineEvent α)
  logs : String
  count : Nat
  result : Except String (Ctx α)
deriving Repr

/-- The `for step in steps:` loop of `PipelineEngine.run`: for each step
in order, `_log` the line naming the step (which appends to `logs` and
commits), then invoke `_execute_step`; stop at the first raising step.
`clock k` is the `utcnow` timestamp string the `k`-th `_log` call
formats; `ca` is the run record's current `completed_at` (unchanged
until a terminal transition, but part of every committed snapshot). -/
def engineLoop (exec : Step → Ctx α → Except String (Ctx α)) (clock : Nat → String)
    (ca : Option DateTime) :
    List Step → Ctx α → String → Nat → LoopOut α
  | [], ctx, logs, _k => { events := [], logs := logs, count := _k, result := Except.ok ctx }
  | step :: rest, ctx, logs, k =>
    let logs1 := logs ++ logLine (clock k)
      ("Executing step: " ++ step.name ++ " (" ++ step.step_type ++ ")")
    let ev1 := EngineEvent.commit { status := "running", logs := some logs1, completed_at := ca }
    match exec step ctx with
    | Except.error e =>
      { events := [ev1, EngineEvent.invoke step ctx], logs := logs1, count := k + 1,
        result := Except.error e }
    | Except.ok ctx' =>
      let out := engineLoop exec clock ca rest ctx' logs1 (k + 1)
      { events := ev1 :: EngineEvent.invoke step ctx :: out.events,
        logs := out.logs, count := out.count, result := out.result }

/-- `steps = sorted(pipeline.steps, key=lambda x: x.order)`: the stable
sort of the steps by their `order` column (insertion sort with `≤` is
stable, as Python's `sorted` is). -/
def stepLE (a b : Step) : Prop := a.order ≤ b.order

instance : DecidableRel stepLE := fun a b => Nat.decLe a.order b.order

instance : IsTotal Step stepLE := ⟨fun a b => Nat.le_total a.order b.order⟩

instance : IsTrans Step stepLE := ⟨fun _ _ _ => Nat.le_trans⟩

/-- Sort a pipeline's steps by ascending `order`. -/
def sortByOrder (l : List Step) : List Step := l.insertionSort stepLE

/-- Outcome of one `PipelineEngine.run(run_id)` call: the event trace,
the final in-memory state of the fetched run record (`none` when no run
row matched), and the Python-level result — `Except.ok none` models
`return None` (run not found), `Except.ok (some rid)` models
`return self.run_record.id`, `Except.error e` models a re-raised
exception. -/
structure EngineResult (α : Type) where
  events : List (EngineEvent α)
  record : Option RunSnapshot
  ret : Except String (Option Nat)
deriving Repr

/-- `PipelineEngine.run(run_id)` (`pipeline_engine.py` lines 33-69).
Fetch the run row; if absent, log and return `None`.  Otherwise set
`status = "running"`, overwrite `logs` with the fixed starting line, and
commit.  Then fetch the pipeline (raising `ValueError` when absent), run
the sorted steps, and on normal completion set `status = "completed"`
and `completed_at`, `_log` the success line (which commits) and commit
once more; on any exception set `status = "failed"` and `completed_at`,
`_log` the failure line with the error text, commit, and re-raise.
`tEnd` is the `utcnow()` the terminal transition stamps; the `finally:
db.close()` has no observable effect on the modelled state. -/
def engineRun (exec : Step → Ctx α → Except String (Ctx α)) (db : DB)
    (pipeline_id run_id : Nat) (clock : Nat → String) (tEnd : DateTime) :
    EngineResult α :=
  match db.runs.find? (fun r => r.id == run_id) with
  | none => { events := [], record := none, ret := Except.ok none }
  | some r0 =>
    let ca := r0.completed_at
    let logs0 := "Starting pipeline execution...\n"
    let ev0 := EngineEvent.commit { status := "running", logs := some logs0, completed_at := ca }
    match db.pipelines.find? (fun p => p.id == pipeline_id) with
    | none =>
      let msg := "Pipeline " ++ toString pipeline_id ++ " not found"
      let logsF := logs0 ++ logLine (clock 0) ("Pipeline failed: " ++ msg)
      let snapF : RunSnapshot := { status := "failed", logs := some logsF, completed_at := some tEnd }
      { events := [ev0, EngineEvent.commit snapF, EngineEvent.commit snapF],
        record := some snapF, ret := Except.error msg }
    | some p =>
      let out := engineLoop exec clock ca (sortByOrder p.steps) [] logs0 0
      match out.result with
      | Except.ok _ =>
        let logsF := out.logs ++ logLine (clock out.count) "Pipeline execution completed successfully."
        let snapF : RunSnapshot := { status := "completed", logs := some logsF, completed_at := some tEnd }
        { events := ev0 :: out.events ++ [EngineEvent.commit snapF, EngineEvent.commit snapF],
          record := some snapF, ret := Except.ok (some r0.id) }
      | Except.error e =>
        let logsF := out.logs ++ logLine (clock out.count) ("Pipeline failed: " ++ e)
        let snapF : RunSnapshot := { status := "failed", logs := some logsF, completed_at := some tEnd }
        { events := ev0 :: out.events ++ [EngineEvent.commit snapF, EngineEvent.commit snapF],
          record := some snapF, ret := Except.error e }

/-- The committed run-record snapshots of an event trace, in commit
order. -/
def commitsOf (evs : List (EngineEvent α)) : List RunSnapshot :=
  evs.filterMap (fun e => match e with
    | EngineEvent.commit s => some s
    | EngineEvent.invoke _ _ => none)

/-- The step-handler invocations of an event trace, each with the
context it received, in invocation order. -/
def invocationsOf (evs : List (EngineEvent α)) : List (Step × Ctx α) :=
  evs.filterMap (fun e => match e with
    | EngineEvent.commit _ => none
    | EngineEvent.invoke s c => some (s, c))

/-- The committed `status` values, in commit order. -/
def statusTraceOf (evs : List (EngineEvent α)) : List String :=
  (commitsOf evs).map (fun s => s.status)

/-- The committed `logs` texts, in commit order. -/
def logsTraceOf (evs : List (EngineEvent α)) : List String :=
  evs.filterMap (fun e => match e with
    | EngineEvent.commit s => s.logs
    | EngineEvent.invoke _ _ => none)

/-- The reference interleaving for a run in which every handler
succeeds: each step is invoked on exactly the context its predecessor
produced, starting from `c`. -/
def threadCtx (exec : Step → Ctx α → Except String (Ctx α)) :
    List Step → Ctx α → List (Step × Ctx α)
  | [], _ => []
  | s :: rest, c =>
    (s, c) :: (match exec s c with
      | Except.ok c' => threadCtx exec rest c'
      | Except.error _ => [])

/-- Relation between two consecutively committed `logs` texts: the later
one either re-persists the same text (the plain `db.commit()` calls that
follow a `_log`) or extends it by exactly one timestamped line. -/
def LogStep (a b : String) : Prop :=
  a = b ∨ ∃ ts msg, b = a ++ logLine ts msg

/-- The shape of the step loop's event trace: a sequence of
(commit, invoke) pairs in which each commit persists a logs text ending
in the timestamped line that names the step invoked right after it —
i.e. every step-naming log line is committed before that step's handler
runs. -/
inductive StepsLogged {α : Type} : List (EngineEvent α) → Prop where
  | nil : StepsLogged []
  | pair (snap : RunSnapshot) (s : Step) (c : Ctx α) (rest : List (EngineEvent α)) :
      (∃ pre ts, snap.logs = some (pre ++ logLine ts
        ("Executing step: " ++ s.name ++ " (" ++ s.step_type ++ ")"))) →
      StepsLogged rest →
      StepsLogged (EngineEvent.commit snap :: EngineEvent.invoke s c :: rest)

/-! ## Step executor (`StepExecutor.run_step`) -/

/-- The override dict a caller may pass to `run_step` to test an edited
step before saving it (`step_override`). -/
structure StepOverride where
  name : String
  step_type : String
  config_json : String
deriving Repr, DecidableEq

/-- The step-cache store: `cache/pipeline_{pid}_step_{order}.joblib`
files, keyed by (pipeline id, step order). -/
abbrev StepCache (α : Type) := List ((Nat × Nat) × Ctx α)

/-- `os.path.exists` + `joblib.load` on the snapshot file for
`(pid, so)`. -/
def cacheLookup (cache : StepCache α) (pid so : Nat) : Option (Ctx α) :=
  (cache.find? (fun e => e.1.1 == pid && e.1.2 == so)).map Prod.snd

/-- `joblib.dump(engine.context, self._get_cache_path(step_order))`:
overwrite the snapshot at `(pid, so)`. -/
def cacheStore (cache : StepCache α) (pid so : Nat) (c : Ctx α) : StepCache α :=
  ((pid, so), c) :: cache.filter (fun e => !(e.1.1 == pid && e.1.2 == so))

/-- Step resolution in `run_step` (lines 367-380): an override
synthesizes an ad-hoc step record at `step_order`; otherwise the
persisted step with that `order` is looked up. -/
def resolveStep (p : Pipeline) (step_order : Nat) (ov : Option StepOverride) : Option Step :=
  match ov with
  | some o => some { name := o.name, step_type := o.step_type, order := step_order,
                     config_json := o.config_json }
  | none => p.steps.find? (fun s => s.order == step_order)

/-- Input-context selection of `run_step` (lines 382-392): start from
the empty dict; when `step_order > 0`, load the cached snapshot of
`step_order - 1` if it exists, and otherwise raise — unless the step is
`extraction`-typed, which keeps the empty dict. -/
def loadInputContext (cache : StepCache α) (pid step_order : Nat) (step_type : String) :
    Except String (Ctx α) :=
  if step_order > 0 then
    match cacheLookup cache pid (step_order - 1) with
    | some c => Except.ok c
    | none =>
      if step_type ≠ "extraction" then
        Except.error "Previous step output not found. Please run previous steps first."
      else Except.ok []
  else Except.ok []

/-- Tail of `run_step` once the input context is loaded: invoke the
handler (`engine._execute_step(step)`), then persist the resulting
context as the snapshot for `step_order`. -/
def execAndCache (exec : Step → Ctx α → Except String (Ctx α)) (cache : StepCache α)
    (pid step_order : Nat) (step : Step) (c : Ctx α) :
    Except String (Ctx α × StepCache α) :=
  match exec step c with
  | Except.error e => Except.error e
  | Except.ok c' => Except.ok (c', cacheStore cache pid step_order c')

/-- `StepExecutor.run_step(step_order, step_override)`
(`pipeline_engine.py` lines 357-405): resolve the pipeline and step,
select the input context, execute the one step against it, and overwrite
the snapshot at `step_order` with the resulting context.  The returned
preview (`_generate_preview`) only renders the opaque external data;
the modelled observables are the resulting context and cache. -/
def runStep (exec : Step → Ctx α → Except String (Ctx α)) (db : DB) (cache : StepCache α)
    (pid step_order : Nat) (ov : Option StepOverride) :
    Except String (Ctx α × StepCache α) :=
  match db.pipelines.find? (fun p => p.id == pid) with
  | none => Except.error "Pipeline not found"
  | some p =>
    match resolveStep p step_order ov with
    | none => Except.error "Step not found"
    | some step =>
      match loadInputContext cache pid step_order step.step_type with
      | Except.error e => Except.error e
      | Except.ok c => execAndCache exec cache pid step_order step c

/-! ## Trace bookkeeping lemmas -/

@[simp] theorem commitsOf_nil : commitsOf ([] : List (EngineEvent α)) = [] := rfl

@[simp] theorem commitsOf_cons_commit (s : RunSnapshot) (evs : List (EngineEvent α)) :
    commitsOf (EngineEvent.commit s :: evs) = s :: commitsOf evs := rfl

@[simp] theorem commitsOf_cons_invoke (st : Step) (c : Ctx α) (evs : List (EngineEvent α)) :
    commitsOf (EngineEvent.invoke st c :: evs) = commitsOf evs := rfl

@[simp] theorem commitsOf_append (l₁ l₂ : List (EngineEvent α)) :
    commitsOf (l₁ ++ l₂) = commitsOf l₁ ++ commitsOf l₂ :=
  List.filterMap_append _ _ _

@[simp] theorem invocationsOf_nil : invocationsOf ([] : List (EngineEvent α)) = [] := rfl

@[simp] theorem invocationsOf_cons_commit (s : RunSnapshot) (evs : List (EngineEvent α)) :
    invocationsOf (EngineEvent.commit s :: evs) = invocationsOf evs := rfl

@[simp] theorem invocationsOf_cons_invoke (st : Step) (c : Ctx α) (evs : List (EngineEvent α)) :
    invocationsOf (EngineEvent.invoke st c :: evs) = (st, c) :: invocationsOf evs := rfl

@[simp] theorem invocationsOf_append (l₁ l₂ : List (EngineEvent α)) :
    invocationsOf (l₁ ++ l₂) = invocationsOf l₁ ++ invocationsOf l₂ :=
  List.filterMap_append _ _ _

@[simp] theorem logsTraceOf_nil : logsTraceOf ([] : List (EngineEvent α)) = [] := rfl

@[simp] theorem logsTraceOf_cons_commit (s : RunSnapshot) (evs : List (EngineEvent α)) :
    logsTraceOf (EngineEvent.commit s :: evs) = s.logs.toList ++ logsTraceOf evs := by
  obtain ⟨st, lg, t⟩ := s
  cases lg <;> rfl

@[simp] theorem logsTraceOf_cons_invoke (st : Step) (c : Ctx α) (evs : List (EngineEvent α)) :
    logsTraceOf (EngineEvent.invoke st c :: evs) = logsTraceOf evs := rfl

@[simp] theorem logsTraceOf_append (l₁ l₂ : List (EngineEvent α)) :
    logsTraceOf (l₁ ++ l₂) = logsTraceOf l₁ ++ logsTraceOf l₂ :=
  List.filterMap_append _ _ _

theorem engineLoop_cons (exec : Step → Ctx α → Except String (Ctx α)) (clock : Nat → String)
    (ca : Option DateTime) (s : Step) (rest : List Step) (ctx : Ctx α) (logs : String) (k : Nat) :
    engineLoop exec clock ca (s :: rest) ctx logs k =
      (let logs1 := logs ++ logLine (clock k)
        ("Executing step: " ++ s.name ++ " (" ++ s.step_type ++ ")")
      let ev1 := EngineEvent.commit { status := "running", logs := some logs1, completed_at := ca }
      match exec s ctx with
      | Except.error e =>
        { events := [ev1, EngineEvent.invoke s ctx], logs := logs1, count := k + 1,
          result := Except.error e }
      | Except.ok ctx' =>
        let out := engineLoop exec clock ca rest ctx' logs1 (k + 1)
        { events := ev1 :: EngineEvent.invoke s ctx :: out.events,
          logs := out.logs, count := out.count, result := out.result }) := rfl

@[simp] theorem logsTraceOf_cons_commit_some (st : String) (L : String) (t : Option DateTime)
    (evs : List (EngineEvent α)) :
    logsTraceOf (EngineEvent.commit { status := st, logs := some L, completed_at := t } :: evs)
      = L :: logsTraceOf evs := rfl

/-- In a run where every handler succeeds, the loop invokes exactly the
given steps, each on the context its predecessor produced, and finishes
without an exception. -/
theorem engineLoop_ok_char (exec : Step → Ctx α → Except String (Ctx α)) (clock : Nat → String)
    (ca : Option DateTime) (hexec : ∀ s c, ∃ c', exec s c = Except.ok c') :
    ∀ (steps : List Step) (ctx : Ctx α) (logs : String) (k : Nat),
      invocationsOf (engineLoop exec clock ca steps ctx logs k).events = threadCtx exec steps ctx
      ∧ ∃ c', (engineLoop exec clock ca steps ctx logs k).result = Except.ok c' := by
  intro steps
  induction steps with
  | nil => intro ctx logs k; exact ⟨rfl, ⟨ctx, rfl⟩⟩
  | cons s rest ih =>
    intro ctx logs k
    obtain ⟨c', hc'⟩ := hexec s ctx
    rw [engineLoop_cons]
    simp only [hc']
    refine ⟨?_, (ih c' _ (k + 1)).2⟩
    simp only [invocationsOf_cons_commit, invocationsOf_cons_invoke]
    rw [(ih c' (logs ++ logLine (clock k)
      ("Executing step: " ++ s.name ++ " (" ++ s.step_type ++ ")")) (k + 1)).1]
    simp [threadCtx, hc']

/-- When every handler succeeds, the reference interleaving visits
exactly the given step list. -/
theorem threadCtx_map_fst (exec : Step → Ctx α → Except String (Ctx α))
    (hexec : ∀ s c, ∃ c', exec s c = Except.ok c') :
    ∀ (steps : List Step) (c : Ctx α), (threadCtx exec steps c).map Prod.fst = steps := by
  intro steps
  induction steps with
  | nil => intro c; rfl
  | cons s rest ih =>
    intro c
    obtain ⟨c', hc'⟩ := hexec s c
    simp only [threadCtx, hc', List.map_cons]
    rw [ih c']

/-- Every snapshot the step loop commits carries status `"running"`. -/
theorem engineLoop_status (exec : Step → Ctx α → Except String (Ctx α)) (clock : Nat → String)
    (ca : Option DateTime) :
    ∀ (steps : List Step) (ctx : Ctx α) (logs : String) (k : Nat),
      ∃ m, statusTraceOf (engineLoop exec clock ca steps ctx logs k).events
            = List.replicate m "running" := by
  intro steps
  induction steps with
  | nil => intro ctx logs k; exact ⟨0, rfl⟩
  | cons s rest ih =>
    intro ctx logs k
    rw [engineLoop_cons]
    cases hx : exec s ctx with
    | error e => exact ⟨1, by simp [hx, statusTraceOf]⟩
    | ok c' =>
      obtain ⟨m, hm⟩ := ih c' (logs ++ logLine (clock k)
        ("Executing step: " ++ s.name ++ " (" ++ s.step_type ++ ")")) (k + 1)
      refine ⟨m + 1, ?_⟩
      simp only [hx, statusTraceOf, commitsOf_cons_commit, commitsOf_cons_invoke,
        List.map_cons, List.replicate_succ]
      exact congrArg (List.cons "running") hm

/-- If some handler raises, the step list splits as an executed prefix,
the failing step, and a suffix that is never reached: the loop invoked
exactly the prefix (in order, on threaded contexts) followed by the
failing step, whose handler returned the raised error. -/
theorem engineLoop_error_char (exec : Step → Ctx α → Except String (Ctx α)) (clock : Nat → String)
    (ca : Option DateTime) :
    ∀ (steps : List Step) (ctx : Ctx α) (logs : String) (k : Nat) (e : String),
      (engineLoop exec clock ca steps ctx logs k).result = Except.error e →
      ∃ (pre : List (Step × Ctx α)) (failStep : Step) (cj : Ctx α) (post : List Step),
        steps = pre.map Prod.fst ++ failStep :: post
        ∧ invocationsOf (engineLoop exec clock ca steps ctx logs k).events
            = pre ++ [(failStep, cj)]
        ∧ exec failStep cj = Except.error e := by
  intro steps
  induction steps with
  | nil => intro ctx logs k e h; exact absurd h (by simp [engineLoop])
  | cons s rest ih =>
    intro ctx logs k e h
    rw [engineLoop_cons] at h ⊢
    cases hx : exec s ctx with
    | error e' =>
      simp only [hx] at h
      have he : e' = e := by
        simpa using h
      refine ⟨[], s, ctx, rest, rfl, ?_, by rw [hx, he]⟩
      simp [hx]
    | ok c' =>
      simp only [hx] at h
      obtain ⟨pre, failStep, cj, post, h1, h2, h3⟩ :=
        ih c' (logs ++ logLine (clock k)
          ("Executing step: " ++ s.name ++ " (" ++ s.step_type ++ ")")) (k + 1) e h
      refine ⟨(s, ctx) :: pre, failStep, cj, post, ?_, ?_, h3⟩
      · simpa using congrArg (List.cons s) h1
      · simp only [hx, invocationsOf_cons_commit, invocationsOf_cons_invoke]
        simpa using congrArg (List.cons (s, ctx)) h2

/-- The committed `logs` texts of the step loop form an append-only
chain starting from the incoming text, and the loop's final `logs` is
the last committed text. -/
theorem engineLoop_logs_chain (exec : Step → Ctx α → Except String (Ctx α)) (clock : Nat → String)
    (ca : Option DateTime) :
    ∀ (steps : List Step) (ctx : Ctx α) (logs : String) (k : Nat),
      List.Chain' LogStep (logs :: logsTraceOf (engineLoop exec clock ca steps ctx logs k).events)
      ∧ (logs :: logsTraceOf (engineLoop exec clock ca steps ctx logs k).events).getLast?
          = some (engineLoop exec clock ca steps ctx logs k).logs := by
  intro steps
  induction steps with
  | nil => intro ctx logs k; exact ⟨List.chain'_singleton _, rfl⟩
  | cons s rest ih =>
    intro ctx logs k
    rw [engineLoop_cons]
    cases hx : exec s ctx with
    | error e =>
      simp only [hx]
      refine ⟨List.chain'_cons.mpr ⟨Or.inr ⟨_, _, rfl⟩, List.chain'_singleton _⟩, ?_⟩
      simp [logsTraceOf]
    | ok c' =>
      simp only [hx]
      obtain ⟨ih1, ih2⟩ := ih c' (logs ++ logLine (clock k)
        ("Executing step: " ++ s.name ++ " (" ++ s.step_type ++ ")")) (k + 1)
      simp only [logsTraceOf_cons_commit_some, logsTraceOf_cons_invoke]
      exact ⟨List.chain'_cons.mpr ⟨Or.inr ⟨_, _, rfl⟩, ih1⟩,
        by rw [List.getLast?_cons_cons]; exact ih2⟩

/-- The loop's trace is a sequence of (commit, invoke) pairs in which
the commit persists the line naming the step invoked right after it. -/
theorem engineLoop_steps_logged (exec : Step → Ctx α → Except String (Ctx α)) (clock : Nat → String)
    (ca : Option DateTime) :
    ∀ (steps : List Step) (ctx : Ctx α) (logs : String) (k : Nat),
      StepsLogged (engineLoop exec clock ca steps ctx logs k).events := by
  intro steps
  induction steps with
  | nil => intro ctx logs k; exact StepsLogged.nil
  | cons s rest ih =>
    intro ctx logs k
    rw [engineLoop_cons]
    cases hx : exec s ctx with
    | error e =>
      simp only [hx]
      exact StepsLogged.pair _ s ctx [] ⟨logs, clock k, rfl⟩ StepsLogged.nil
    | ok c' =>
      simp only [hx]
      exact StepsLogged.pair _ s ctx _ ⟨logs, clock k, rfl⟩
        (ih c' (logs ++ logLine (clock k)
          ("Executing step: " ++ s.name ++ " (" ++ s.step_type ++ ")")) (k + 1))

/-! ## Concrete fixtures (used by witnesses and counterexamples) -/

/-- Noon of calendar day 100. -/
def dt0 : DateTime := { day := 100, hour := 12, minute := 0, second := 0 }

/-- 3601 seconds after `dt0`. -/
def dt1 : DateTime := { day := 100, hour := 13, minute := 0, second := 1 }

/-- 10 seconds after `dt0`. -/
def dt2 : DateTime := { day := 100, hour := 12, minute := 0, second := 10 }

def stepA : Step := { name := "extract", step_type := "extraction", order := 0, config_json := "qA" }

def stepB : Step := { name := "train", step_type := "training", order := 1, config_json := "qB" }

def stepC : Step := { name := "persist", step_type := "save", order := 2, config_json := "qC" }

/-- A 3-step pipeline on a 3600-second interval schedule, never yet
triggered. -/
def pipe1 : Pipeline :=
  { id := 1, name := "demo", schedule_enabled := 1, schedule_time := none,
    schedule_interval := some 3600, last_run := none, steps := [stepA, stepB, stepC] }

/-- A pipeline scheduled daily at 12:00, with both schedule fields set. -/
def pipeBoth : Pipeline :=
  { id := 3, name := "both", schedule_enabled := 1, schedule_time := some "12:00",
    schedule_interval := some 3600, last_run := some dt0, steps := [] }

/-- A pipeline scheduled daily at 12:00 with no (positive) interval. -/
def pipeDaily : Pipeline :=
  { id := 2, name := "nightly", schedule_enabled := 1, schedule_time := some "12:00",
    schedule_interval := none, last_run := none, steps := [stepA] }

/-- A pending run of `pipe1`. -/
def run1 : RunRecord :=
  { id := 7, pipeline_id := 1, status := "pending", logs := none,
    created_at := dt0, completed_at := none }

def db1 : DB := { pipelines := [pipe1], runs := [run1], nextRunId := 8 }

/-- A handler oracle for which every step succeeds, tagging the context
with the step's name. -/
def execOk : Step → Ctx Nat → Except String (Ctx Nat) :=
  fun s c => Except.ok ((s.name, c.length) :: c)

/-- A handler oracle whose order-1 step raises `"boom"`. -/
def execBoom : Step → Ctx Nat → Except String (Ctx Nat) :=
  fun s c => if s.order == 1 then Except.error "boom" else Except.ok ((s.name, 0) :: c)

/-- A timestamp source for `_log`. -/
def clk : Nat → String := fun n => toString n

/-! ## Scheduler claims -/

/-- When a pipeline is not in interval mode
(`schedule_interval and schedule_interval > 0` falsy), the tick
evaluates the daily branch. -/
theorem shouldRun_eq_dailyDue (now : DateTime) (p : Pipeline)
    (h : ∀ i : Int, p.schedule_interval = some i → i ≤ 0) :
    shouldRun now p = dailyDue now p := by
  unfold shouldRun
  cases hi : p.schedule_interval with
  | none => rfl
  | some i =>
    have : ¬ (0 < i) := not_lt.mpr (h i hi)
    simp [this]

/-- C2: for an interval-scheduled pipeline, a poll tick marks it due
exactly when `last_run` is unset or `now - last_run ≥
schedule_interval`.  In particular (see the witness) the first poll
after creation triggers, a poll 10 s into a 3600 s interval does not,
and a poll 3601 s after the last trigger does. -/
theorem interval_mode_due_iff (p : Pipeline) (now : DateTime) (i : Int)
    (hi : p.schedule_interval = some i) (hpos : 0 < i) :
    shouldRun now p = true ↔
      (p.last_run = none ∨ ∃ lr, p.last_run = some lr ∧ i ≤ elapsedSeconds now lr) := by
  unfold shouldRun
  rw [hi]
  simp only [if_pos hpos]
  unfold intervalDue
  cases h : p.last_run with
  | none => simp
  | some lr => simp [h]

/-- C2 witness: the interval-3600 pipeline with `last_run` unset is due;
once `last_run = dt0`, a poll 10 s later is not due and a poll 3601 s
later is due again. -/
theorem interval_mode_due_iff_witness :
    (shouldRun dt0 pipe1 = true ↔
      (pipe1.last_run = none ∨
        ∃ lr, pipe1.last_run = some lr ∧ 3600 ≤ elapsedSeconds dt0 lr))
    ∧ (shouldRun dt2 { pipe1 with last_run := some dt0 } = true ↔
      (({ pipe1 with last_run := some dt0 } : Pipeline).last_run = none ∨
        ∃ lr, ({ pipe1 with last_run := some dt0 } : Pipeline).last_run = some lr ∧
          3600 ≤ elapsedSeconds dt2 lr))
    ∧ (shouldRun dt1 { pipe1 with last_run := some dt0 } = true ↔
      (({ pipe1 with last_run := some dt0 } : Pipeline).last_run = none ∨
        ∃ lr, ({ pipe1 with last_run := some dt0 } : Pipeline).last_run = some lr ∧
          3600 ≤ elapsedSeconds dt1 lr)) :=
  ⟨interval_mode_due_iff pipe1 dt0 3600 rfl (by decide),
   interval_mode_due_iff { pipe1 with last_run := some dt0 } dt2 3600 rfl (by decide),
   interval_mode_due_iff { pipe1 with last_run := some dt0 } dt1 3600 rfl (by decide)⟩

/-- C3: for a daily-time-scheduled pipeline (no positive interval,
non-empty `schedule_time`), a poll tick marks it due exactly when the
wall-clock HH:MM equals `schedule_time` and the last run, if any, was on
a strictly earlier calendar date; and once `last_run` has been advanced
to the triggering tick's `now`, no later tick of the same calendar day
is due again — at most one trigger per day. -/
theorem daily_mode_due_iff_once_per_day (p : Pipeline) (now : DateTime) (t : String)
    (hnoint : ∀ i : Int, p.schedule_interval = some i → i ≤ 0)
    (ht : p.schedule_time = some t) (hne : t ≠ "") :
    (shouldRun now p = true ↔
      (t = now.hhmm ∧
        (p.last_run = none ∨ ∃ lr, p.last_run = some lr ∧ lr.day < now.day)))
    ∧ (∀ now' : DateTime, now'.day = now.day →
        shouldRun now' { p with last_run := some now } = false) := by
  constructor
  · rw [shouldRun_eq_dailyDue now p hnoint]
    unfold dailyDue
    rw [ht]
    simp only [if_neg hne]
    by_cases hm : t = now.hhmm
    · rw [if_pos hm]
      cases h : p.last_run with
      | none => simp [hm]
      | some lr => simp [h, hm]
    · rw [if_neg hm]
      simp [hm]
  · intro now' hday
    have hnoint' : ∀ i : Int,
        ({ p with last_run := some now } : Pipeline).schedule_interval = some i → i ≤ 0 :=
      hnoint
    rw [shouldRun_eq_dailyDue now' _ hnoint']
    unfold dailyDue
    simp only [ht]
    rw [if_neg hne]
    by_cases hm : t = now'.hhmm
    · rw [if_pos hm]
      simp [hday]
    · rw [if_neg hm]

/-- C3 witness: at 12:00 of day 100 the never-run daily pipeline is due;
with `last_run` advanced to that tick, a tick one hour later the same
day is not due. -/
theorem daily_mode_due_iff_once_per_day_witness :
    ((shouldRun dt0 pipeDaily = true ↔
      ("12:00" = dt0.hhmm ∧
        (pipeDaily.last_run = none ∨
          ∃ lr, pipeDaily.last_run = some lr ∧ lr.day < dt0.day)))
    ∧ (∀ now' : DateTime, now'.day = dt0.day →
        shouldRun now' { pipeDaily with last_run := some dt0 } = false))
    ∧ shouldRun dt0 pipeDaily = true
    ∧ shouldRun dt1 { pipeDaily with last_run := some dt0 } = false :=
  have h := daily_mode_due_iff_once_per_day pipeDaily dt0 "12:00"
    (fun i hi => by simp [pipeDaily] at hi) rfl (by decide)
  ⟨h, h.1.mpr (by refine ⟨by decide, Or.inl rfl⟩), h.2 dt1 rfl⟩

/-- C10: when a schedule-enabled pipeline has both a positive
`schedule_interval` and a non-empty `schedule_time`, the tick evaluates
only the interval condition: the decision equals `intervalDue` and is
unchanged under any modification of `schedule_time` — the daily-time
branch is dead for such a pipeline. -/
theorem interval_mode_takes_precedence (p : Pipeline) (now : DateTime) (i : Int) (t : String)
    (hi : p.schedule_interval = some i) (hpos : 0 < i)
    (ht : p.schedule_time = some t) (hne : t ≠ "") :
    shouldRun now p = intervalDue now p.last_run i
    ∧ ∀ t' : Option String,
        shouldRun now { p with schedule_time := t' } = intervalDue now p.last_run i := by
  constructor
  · unfold shouldRun
    rw [hi]
    simp [hpos]
  · intro t'
    unfold shouldRun
    show (match p.schedule_interval with
      | some i => if 0 < i then intervalDue now p.last_run i
                  else dailyDue now { p with schedule_time := t' }
      | none => dailyDue now { p with schedule_time := t' }) = intervalDue now p.last_run i
    rw [hi]
    simp [hpos]

/-- C10 witness: for the pipeline with interval 3600 and
`schedule_time = "12:00"` (and `last_run = dt0`), the 12:00 tick of the
same day decides by `intervalDue` alone, whatever `schedule_time` is
changed to. -/
theorem interval_mode_takes_precedence_witness :
    shouldRun dt0 pipeBoth = intervalDue dt0 pipeBoth.last_run 3600
    ∧ ∀ t' : Option String,
        shouldRun dt0 { pipeBoth with schedule_time := t' }
          = intervalDue dt0 pipeBoth.last_run 3600 :=
  interval_mode_takes_precedence pipeBoth dt0 3600 "12:00" rfl (by decide) rfl (by decide)

/-- Advancing `last_run` of the pipeline found by id leaves it the first
(and updated) match of the id query. -/
theorem find?_update_last_run (l : List Pipeline) (pid : Nat) (p : Pipeline) (now : DateTime)
    (h : l.find? (fun q => q.id == pid) = some p) :
    (l.map (fun q => if q.id == pid then { q with last_run := some now } else q)).find?
      (fun q => q.id == pid) = some { p with last_run := some now } := by
  induction l with
  | nil => simp at h
  | cons a l ih =>
    by_cases ha : (a.id == pid) = true
    · rw [@List.find?_cons_of_pos Pipeline (fun q => q.id == pid) a l ha] at h
      injection h with h
      subst h
      rw [List.map_cons, if_pos ha]
      exact @List.find?_cons_of_pos Pipeline (fun q => q.id == pid) _ _ ha
    · rw [@List.find?_cons_of_neg Pipeline (fun q => q.id == pid) a l ha] at h
      rw [List.map_cons, if_neg ha,
        @List.find?_cons_of_neg Pipeline (fun q => q.id == pid) a _ ha]
      exact ih h

/-- C4: `_trigger_pipeline` on a due pipeline appends exactly one new
`PipelineRun` with status `"pending"`, advances the pipeline's
`last_run` to the tick's `now`, and emits, in program order, the run
insert, the `last_run` update, the single transaction commit, and only
then the dispatch of `(pipeline id, run id)` to the task queue; as a
consequence, for an interval-scheduled pipeline a second poll tick
observed before the interval has elapsed again is not due, whether or
not the dispatched run has completed. -/
theorem trigger_update_before_dispatch (db : DB) (p : Pipeline) (now : DateTime)
    (hfind : db.pipelines.find? (fun q => q.id == p.id) = some p) :
    (triggerPipeline now db p.id).1.runs = db.runs ++
        [{ id := db.nextRunId, pipeline_id := p.id, status := "pending", logs := none,
           created_at := now, completed_at := none }]
    ∧ (triggerPipeline now db p.id).1.pipelines.find? (fun q => q.id == p.id)
        = some { p with last_run := some now }
    ∧ (triggerPipeline now db p.id).2 =
        [SchedEvent.createRun db.nextRunId p.id, SchedEvent.updateLastRun p.id now,
         SchedEvent.commit, SchedEvent.dispatch p.id db.nextRunId]
    ∧ (∀ i : Int, p.schedule_interval = some i → 0 < i →
        ∀ now' : DateTime, elapsedSeconds now' now < i →
          shouldRun now' { p with last_run := some now } = false) := by
  refine ⟨?_, ?_, ?_, ?_⟩
  · unfold triggerPipeline
    rw [hfind]
  · unfold triggerPipeline
    rw [hfind]
    exact find?_update_last_run db.pipelines p.id p now hfind
  · unfold triggerPipeline
    rw [hfind]
  · intro i hi hpos now' hlt
    unfold shouldRun
    show (match p.schedule_interval with
      | some i => if 0 < i then intervalDue now' (some now) i
                  else dailyDue now' { p with last_run := some now }
      | none => dailyDue now' { p with last_run := some now }) = false
    rw [hi]
    simp only [if_pos hpos]
    unfold intervalDue
    simp [not_le.mpr hlt]

/-- C4 witness: triggering `pipe1` (found due at `dt0` with `last_run`
unset) in `db1` creates pending run 8, advances `last_run` to `dt0`,
commits before dispatching, and a tick 10 s later is no longer due. -/
theorem trigger_update_before_dispatch_witness :
    ((triggerPipeline dt0 db1 pipe1.id).1.runs = db1.runs ++
        [{ id := db1.nextRunId, pipeline_id := pipe1.id, status := "pending", logs := none,
           created_at := dt0, completed_at := none }]
    ∧ (triggerPipeline dt0 db1 pipe1.id).1.pipelines.find? (fun q => q.id == pipe1.id)
        = some { pipe1 with last_run := some dt0 }
    ∧ (triggerPipeline dt0 db1 pipe1.id).2 =
        [SchedEvent.createRun db1.nextRunId pipe1.id, SchedEvent.updateLastRun pipe1.id dt0,
         SchedEvent.commit, SchedEvent.dispatch pipe1.id db1.nextRunId]
    ∧ (∀ i : Int, pipe1.schedule_interval = some i → 0 < i →
        ∀ now' : DateTime, elapsedSeconds now' dt0 < i →
          shouldRun now' { pipe1 with last_run := some dt0 } = false))
    ∧ shouldRun dt0 pipe1 = true
    ∧ shouldRun dt2 { pipe1 with last_run := some dt0 } = false :=
  have h := trigger_update_before_dispatch db1 pipe1 dt0 rfl
  ⟨h, by decide, h.2.2.2 3600 rfl (by decide) dt2 (by decide)⟩

/-! ## Engine claims -/

/-- C5: when the run and pipeline exist and every handler succeeds,
`Engine.run` invokes exactly the steps sorted by strictly ascending
`order` (duplicate orders being excluded by the data model), each
handler receiving the very context its predecessor finished writing;
afterwards the run record is committed as `completed` with
`completed_at` stamped and the success line appended, and the run id is
returned. -/
theorem engine_run_success_in_order
    (exec : Step → Ctx α → Except String (Ctx α)) (db : DB) (pid rid : Nat)
    (clock : Nat → String) (tEnd : DateTime) (r0 : RunRecord) (p : Pipeline)
    (hrun : db.runs.find? (fun r => r.id == rid) = some r0)
    (hpipe : db.pipelines.find? (fun q => q.id == pid) = some p)
    (hnd : (p.steps.map (fun s => s.order)).Nodup)
    (hexec : ∀ s c, ∃ c', exec s c = Except.ok c') :
    invocationsOf (engineRun exec db pid rid clock tEnd).events
      = threadCtx exec (sortByOrder p.steps) []
    ∧ (invocationsOf (engineRun exec db pid rid clock tEnd).events).map Prod.fst
      = sortByOrder p.steps
    ∧ List.Pairwise (fun a b => a.order < b.order) (sortByOrder p.steps)
    ∧ (∃ L n, (engineRun exec db pid rid clock tEnd).record
        = some { status := "completed",
                 logs := some (L ++ logLine (clock n) "Pipeline execution completed successfully."),
                 completed_at := some tEnd })
    ∧ (engineRun exec db pid rid clock tEnd).ret = Except.ok (some r0.id) := by
  have hloop := engineLoop_ok_char exec clock r0.completed_at hexec (sortByOrder p.steps) []
    "Starting pipeline execution...\n" 0
  obtain ⟨c', hres⟩ := hloop.2
  have hinvfull : invocationsOf (engineRun exec db pid rid clock tEnd).events
      = threadCtx exec (sortByOrder p.steps) [] := by
    simp only [engineRun, hrun, hpipe, hres]
    simpa using hloop.1
  refine ⟨hinvfull, ?_, ?_, ?_, ?_⟩
  · rw [hinvfull, threadCtx_map_fst exec hexec]
  · have hsorted : List.Pairwise stepLE (sortByOrder p.steps) :=
      List.sorted_insertionSort stepLE p.steps
    have hperm : (sortByOrder p.steps).Perm p.steps := List.perm_insertionSort stepLE p.steps
    have hmapnd : ((sortByOrder p.steps).map (fun s => s.order)).Nodup :=
      ((hperm.map (fun s => s.order)).nodup_iff).mpr hnd
    have hne : List.Pairwise (fun a b : Step => a.order ≠ b.order) (sortByOrder p.steps) :=
      List.pairwise_map.mp hmapnd
    exact (hsorted.and hne).imp (fun h => lt_of_le_of_ne h.1 h.2)
  · refine ⟨(engineLoop exec clock r0.completed_at (sortByOrder p.steps) []
      "Starting pipeline execution...\n" 0).logs,
      (engineLoop exec clock r0.completed_at (sortByOrder p.steps) []
      "Starting pipeline execution...\n" 0).count, ?_⟩
    simp only [engineRun, hrun, hpipe, hres]
  · simp only [engineRun, hrun, hpipe, hres]

/-- C5 witness: running the 3-step pipeline `pipe1` (run 7) with an
all-succeeding handler oracle executes extract, train, persist in
ascending order on threaded contexts, completes the run and returns
id 7. -/
theorem engine_run_success_in_order_witness :
    invocationsOf (engineRun execOk db1 1 7 clk dt0).events
      = threadCtx execOk (sortByOrder pipe1.steps) []
    ∧ (invocationsOf (engineRun execOk db1 1 7 clk dt0).events).map Prod.fst
      = sortByOrder pipe1.steps
    ∧ List.Pairwise (fun a b => a.order < b.order) (sortByOrder pipe1.steps)
    ∧ (∃ L n, (engineRun execOk db1 1 7 clk dt0).record
        = some { status := "completed",
                 logs := some (L ++ logLine (clk n) "Pipeline execution completed successfully."),
                 completed_at := some dt0 })
    ∧ (engineRun execOk db1 1 7 clk dt0).ret = Except.ok (some run1.id) :=
  engine_run_success_in_order execOk db1 1 7 clk dt0 run1 pipe1 rfl rfl (by decide)
    (fun s c => ⟨(s.name, c.length) :: c, rfl⟩)

/-- C6: with the run present and pending, the sequence of status values
the record takes across one `Engine.run` invocation (its initial value
followed by the committed values) is exactly `pending`, then one or more
`running` commits, then a terminal value — `completed` or `failed` —
re-committed once: a subsequence of
`pending → running → completed`/`failed` that never regresses, never
skips `running`, and never moves again after the terminal value. -/
theorem run_status_never_regresses
    (exec : Step → Ctx α → Except String (Ctx α)) (db : DB) (pid rid : Nat)
    (clock : Nat → String) (tEnd : DateTime) (r0 : RunRecord)
    (hrun : db.runs.find? (fun r => r.id == rid) = some r0)
    (hpend : r0.status = "pending") :
    ∃ (m : Nat) (t : String), 1 ≤ m ∧ (t = "completed" ∨ t = "failed") ∧
      r0.status :: statusTraceOf (engineRun exec db pid rid clock tEnd).events
        = "pending" :: (List.replicate m "running" ++ [t, t]) := by
  cases hpipe : db.pipelines.find? (fun q => q.id == pid) with
  | none =>
    refine ⟨1, "failed", le_refl 1, Or.inr rfl, ?_⟩
    simp only [engineRun, hrun, hpipe, hpend, statusTraceOf, commitsOf_cons_commit,
      commitsOf_nil, List.map_cons, List.map_nil]
    rfl
  | some p =>
    obtain ⟨m, hm⟩ := engineLoop_status exec clock r0.completed_at (sortByOrder p.steps) []
      "Starting pipeline execution...\n" 0
    cases hres : (engineLoop exec clock r0.completed_at (sortByOrder p.steps) []
        "Starting pipeline execution...\n" 0).result with
    | ok cF =>
      refine ⟨m + 1, "completed", Nat.le_add_left 1 m, Or.inl rfl, ?_⟩
      simp only [engineRun, hrun, hpipe, hres, hpend, statusTraceOf, commitsOf_cons_commit,
        commitsOf_append, List.map_cons, List.map_append, List.replicate_succ]
      simp only [statusTraceOf] at hm
      rw [hm]
      rfl
    | error e =>
      refine ⟨m + 1, "failed", Nat.le_add_left 1 m, Or.inr rfl, ?_⟩
      simp only [engineRun, hrun, hpipe, hres, hpend, statusTraceOf, commitsOf_cons_commit,
        commitsOf_append, List.map_cons, List.map_append, List.replicate_succ]
      simp only [statusTraceOf] at hm
      rw [hm]
      rfl

/-- C6 witness: the successful run of `pipe1` takes the statuses
`pending`, `running` (four commits), `completed`, `completed`. -/
theorem run_status_never_regresses_witness :
    ∃ (m : Nat) (t : String), 1 ≤ m ∧ (t = "completed" ∨ t = "failed") ∧
      run1.status :: statusTraceOf (engineRun execOk db1 1 7 clk dt0).events
        = "pending" :: (List.replicate m "running" ++ [t, t]) :=
  run_status_never_regresses execOk db1 1 7 clk dt0 run1 rfl rfl

/-- C1: when some step's handler raises, `Engine.run` commits the run as
`failed` with `completed_at` stamped and the error message appended as a
log line, invokes no step after the failing one (the sorted step list
splits into the executed prefix, the failing step, and an untouched
suffix), and re-raises the same error to its caller — the engine
performs no retry of its own. -/
theorem engine_run_failure_stops_and_reraises
    (exec : Step → Ctx α → Except String (Ctx α)) (db : DB) (pid rid : Nat)
    (clock : Nat → String) (tEnd : DateTime) (r0 : RunRecord) (p : Pipeline) (e : String)
    (hrun : db.runs.find? (fun r => r.id == rid) = some r0)
    (hpipe : db.pipelines.find? (fun q => q.id == pid) = some p)
    (herr : (engineLoop exec clock r0.completed_at (sortByOrder p.steps) []
      "Starting pipeline execution...\n" 0).result = Except.error e) :
    (engineRun exec db pid rid clock tEnd).ret = Except.error e
    ∧ (engineRun exec db pid rid clock tEnd).record
        = some ⟨"failed",
            some ((engineLoop exec clock r0.completed_at (sortByOrder p.steps) []
                "Starting pipeline execution...\n" 0).logs
              ++ logLine (clock (engineLoop exec clock r0.completed_at (sortByOrder p.steps) []
                "Starting pipeline execution...\n" 0).count) ("Pipeline failed: " ++ e)),
            some tEnd⟩
    ∧ ∃ (pre : List (Step × Ctx α)) (failStep : Step) (cj : Ctx α) (post : List Step),
        sortByOrder p.steps = pre.map Prod.fst ++ failStep :: post
        ∧ invocationsOf (engineRun exec db pid rid clock tEnd).events = pre ++ [(failStep, cj)]
        ∧ exec failStep cj = Except.error e := by
  refine ⟨?_, ?_, ?_⟩
  · simp only [engineRun, hrun, hpipe, herr]
  · simp only [engineRun, hrun, hpipe, herr]
  · obtain ⟨pre, failStep, cj, post, h1, h2, h3⟩ :=
      engineLoop_error_char exec clock r0.completed_at (sortByOrder p.steps) []
        "Starting pipeline execution...\n" 0 e herr
    refine ⟨pre, failStep, cj, post, h1, ?_, h3⟩
    simp only [engineRun, hrun, hpipe, herr]
    simpa using h2

/-- C1 witness: with a handler oracle whose order-1 step (`train`)
raises `"boom"` inside the 3-step pipeline `pipe1`, the run ends
`failed` with `"Pipeline failed: boom"` appended, the `persist` step is
never invoked, and the error is re-raised. -/
theorem engine_run_failure_stops_and_reraises_witness :
    (engineRun execBoom db1 1 7 clk dt0).ret = Except.error "boom"
    ∧ (engineRun execBoom db1 1 7 clk dt0).record
        = some ⟨"failed",
            some ((engineLoop execBoom clk run1.completed_at (sortByOrder pipe1.steps) []
                "Starting pipeline execution...\n" 0).logs
              ++ logLine (clk (engineLoop execBoom clk run1.completed_at (sortByOrder pipe1.steps) []
                "Starting pipeline execution...\n" 0).count) ("Pipeline failed: " ++ "boom")),
            some dt0⟩
    ∧ ∃ (pre : List (Step × Ctx Nat)) (failStep : Step) (cj : Ctx Nat) (post : List Step),
        sortByOrder pipe1.steps = pre.map Prod.fst ++ failStep :: post
        ∧ invocationsOf (engineRun execBoom db1 1 7 clk dt0).events = pre ++ [(failStep, cj)]
        ∧ execBoom failStep cj = Except.error "boom" :=
  engine_run_failure_stops_and_reraises execBoom db1 1 7 clk dt0 run1 pipe1 "boom"
    rfl rfl rfl

/-- A store holding `pipe1` but no run rows. -/
def dbNoRuns : DB := { pipelines := [pipe1], runs := [], nextRunId := 1 }

/-- C7 counterexample: calling `Engine.run` with a run id that matches
no `PipelineRun` does **not** fail with an error — the source logs and
executes `return`, so the call returns `None` (the repository's own
test `test_pipeline_run_not_found` asserts exactly this). -/
theorem run_not_found_returns_none_cex :
    (engineRun execOk dbNoRuns 1 42 clk dt0).ret = Except.ok none
    ∧ ∀ e : String, (engineRun execOk dbNoRuns 1 42 clk dt0).ret ≠ Except.error e := by
  refine ⟨rfl, ?_⟩
  intro e h
  rw [show (engineRun execOk dbNoRuns 1 42 clk dt0).ret = Except.ok none from rfl] at h
  exact Except.noConfusion h

/-- C7 amended: when no `PipelineRun` matches the id, `Engine.run` logs
the miss and returns `None` without raising and without touching any
state; when the run and pipeline exist and every step completes, it
returns the run id. -/
theorem run_interface_none_or_id
    (exec : Step → Ctx α → Except String (Ctx α)) (db : DB) (pid rid : Nat)
    (clock : Nat → String) (tEnd : DateTime) :
    (db.runs.find? (fun r => r.id == rid) = none →
      (engineRun exec db pid rid clock tEnd).ret = Except.ok none
      ∧ (engineRun exec db pid rid clock tEnd).events = [])
    ∧ (∀ (r0 : RunRecord) (p : Pipeline),
        db.runs.find? (fun r => r.id == rid) = some r0 →
        db.pipelines.find? (fun q => q.id == pid) = some p →
        (∀ s c, ∃ c', exec s c = Except.ok c') →
        (engineRun exec db pid rid clock tEnd).ret = Except.ok (some r0.id)) := by
  constructor
  · intro hnone
    constructor
    · simp only [engineRun, hnone]
    · simp only [engineRun, hnone]
  · intro r0 p hrun hpipe hexec
    obtain ⟨c', hres⟩ := (engineLoop_ok_char exec clock r0.completed_at hexec
      (sortByOrder p.steps) [] "Starting pipeline execution...\n" 0).2
    simp only [engineRun, hrun, hpipe, hres]

/-- C7 amended witness: in `dbNoRuns`, id 42 yields `None` with no
commits; in `db1`, the successful run of id 7 returns 7. -/
theorem run_interface_none_or_id_witness :
    ((engineRun execOk dbNoRuns 1 42 clk dt0).ret = Except.ok none
      ∧ (engineRun execOk dbNoRuns 1 42 clk dt0).events = [])
    ∧ (engineRun execOk db1 1 7 clk dt0).ret = Except.ok (some run1.id) :=
  ⟨(run_interface_none_or_id execOk dbNoRuns 1 42 clk dt0).1 rfl,
   (run_interface_none_or_id execOk db1 1 7 clk dt0).2 run1 pipe1 rfl rfl
     (fun s c => ⟨(s.name, c.length) :: c, rfl⟩)⟩

/-- Pre-existing log text on a run record, longer than the engine's
starting line. -/
def priorLogs : String :=
  "previously recorded line one\npreviously recorded line two\n"

/-- A pending run of pipeline 1 that already carries log text. -/
def runPrior : RunRecord :=
  { id := 7, pipeline_id := 1, status := "pending", logs := some priorLogs,
    created_at := dt0, completed_at := none }

/-- A store holding `runPrior` and no pipelines. -/
def dbPrior : DB := { pipelines := [], runs := [runPrior], nextRunId := 8 }

/-- C9 counterexample: the first write of `Engine.run` is
`self.run_record.logs = "Starting pipeline execution...\n"` — an
assignment, not an append.  On a run whose `logs` field already holds
text, the first committed value is the bare starting line, which cannot
extend the previous text (it is shorter), so the earlier lines are
discarded; the line is also not timestamped. -/
theorem engine_logs_first_write_overwrites_cex :
    runPrior.logs = some priorLogs
    ∧ (logsTraceOf (engineRun execOk dbPrior 1 7 clk dt0).events).head?
        = some "Starting pipeline execution...\n"
    ∧ ¬ ∃ tail : String, "Starting pipeline execution...\n" = priorLogs ++ tail := by
  refine ⟨rfl, rfl, ?_⟩
  rintro ⟨tail, h⟩
  have hl := congrArg String.length h
  rw [String.length_append] at hl
  have h1 : ("Starting pipeline execution...\n").length = 31 := by decide
  have h2 : priorLogs.length = 58 := by decide
  rw [h1, h2] at hl
  omega

/-- Gluing an append-only chain with its two terminal commits: the last
committed text gets one line appended and is then re-committed. -/
theorem chain'_logStep_glue (a : String) (l : List String) (b : String)
    (h1 : List.Chain' LogStep (a :: l)) (h2 : (a :: l).getLast? = some b)
    (ts msg : String) :
    List.Chain' LogStep (a :: (l ++ [b ++ logLine ts msg, b ++ logLine ts msg])) := by
  have hsplit : a :: (l ++ [b ++ logLine ts msg, b ++ logLine ts msg])
      = (a :: l) ++ [b ++ logLine ts msg, b ++ logLine ts msg] := by simp
  rw [hsplit]
  refine List.chain'_append.mpr ⟨h1, ?_, ?_⟩
  · exact List.chain'_cons.mpr ⟨Or.inl rfl, List.chain'_singleton _⟩
  · intro x hx y hy
    rw [h2] at hx
    simp only [Option.mem_def, Option.some.injEq] at hx
    subst hx
    simp only [List.head?_cons, Option.mem_def, Option.some.injEq] at hy
    subst hy
    exact Or.inr ⟨ts, msg, rfl⟩

/-- C9 amended: the engine's first write resets `logs` to the fixed,
untimestamped line `"Starting pipeline execution...\n"` (discarding any
pre-existing text); from then on the committed `logs` values are
append-only — each commit either re-persists the previous value (the
plain `db.commit()` after a terminal `_log`) or extends it by exactly
one timestamped line — and each step-naming line is committed before
that step's handler is invoked. -/
theorem engine_logs_committed_append_only
    (exec : Step → Ctx α → Except String (Ctx α)) (db : DB) (pid rid : Nat)
    (clock : Nat → String) (tEnd : DateTime) (r0 : RunRecord)
    (hrun : db.runs.find? (fun r => r.id == rid) = some r0) :
    (logsTraceOf (engineRun exec db pid rid clock tEnd).events).head?
      = some "Starting pipeline execution...\n"
    ∧ List.Chain' LogStep (logsTraceOf (engineRun exec db pid rid clock tEnd).events)
    ∧ ∃ (loopEvs : List (EngineEvent α)) (snapF : RunSnapshot),
        (engineRun exec db pid rid clock tEnd).events
          = EngineEvent.commit ⟨"running", some "Starting pipeline execution...\n",
              r0.completed_at⟩ :: (loopEvs ++ [EngineEvent.commit snapF, EngineEvent.commit snapF])
        ∧ StepsLogged loopEvs := by
  cases hpipe : db.pipelines.find? (fun q => q.id == pid) with
  | none =>
    refine ⟨?_, ?_, [], ⟨"failed",
      some ("Starting pipeline execution...\n"
        ++ logLine (clock 0) ("Pipeline failed: " ++ ("Pipeline " ++ toString pid ++ " not found"))),
      some tEnd⟩, ?_, StepsLogged.nil⟩
    · simp only [engineRun, hrun, hpipe]
      rfl
    · simp only [engineRun, hrun, hpipe]
      refine List.chain'_cons.mpr ⟨Or.inr ⟨_, _, rfl⟩, ?_⟩
      exact List.chain'_cons.mpr ⟨Or.inl rfl, List.chain'_singleton _⟩
    · simp only [engineRun, hrun, hpipe]
      rfl
  | some p =>
    have hloop := engineLoop_logs_chain exec clock r0.completed_at (sortByOrder p.steps) []
      "Starting pipeline execution...\n" 0
    have hlogged := engineLoop_steps_logged exec clock r0.completed_at (sortByOrder p.steps) []
      "Starting pipeline execution...\n" 0
    cases hres : (engineLoop exec clock r0.completed_at (sortByOrder p.steps) []
        "Starting pipeline execution...\n" 0).result with
    | ok cF =>
      refine ⟨?_, ?_, (engineLoop exec clock r0.completed_at (sortByOrder p.steps) []
        "Starting pipeline execution...\n" 0).events,
        ⟨"completed",
          some ((engineLoop exec clock r0.completed_at (sortByOrder p.steps) []
              "Starting pipeline execution...\n" 0).logs
            ++ logLine (clock (engineLoop exec clock r0.completed_at (sortByOrder p.steps) []
              "Starting pipeline execution...\n" 0).count)
              "Pipeline execution completed successfully."),
          some tEnd⟩, ?_, hlogged⟩
      · simp only [engineRun, hrun, hpipe, hres]
        rfl
      · simp only [engineRun, hrun, hpipe, hres, logsTraceOf_cons_commit_some,
          logsTraceOf_append, logsTraceOf_cons_invoke, logsTraceOf_nil]
        exact chain'_logStep_glue _ _ _ hloop.1 hloop.2 _ _
      · simp only [engineRun, hrun, hpipe, hres, List.cons_append]
    | error e =>
      refine ⟨?_, ?_, (engineLoop exec clock r0.completed_at (sortByOrder p.steps) []
        "Starting pipeline execution...\n" 0).events,
        ⟨"failed",
          some ((engineLoop exec clock r0.completed_at (sortByOrder p.steps) []
              "Starting pipeline execution...\n" 0).logs
            ++ logLine (clock (engineLoop exec clock r0.completed_at (sortByOrder p.steps) []
              "Starting pipeline execution...\n" 0).count) ("Pipeline failed: " ++ e)),
          some tEnd⟩, ?_, hlogged⟩
      · simp only [engineRun, hrun, hpipe, hres]
        rfl
      · simp only [engineRun, hrun, hpipe, hres, logsTraceOf_cons_commit_some,
          logsTraceOf_append, logsTraceOf_cons_invoke, logsTraceOf_nil]
        exact chain'_logStep_glue _ _ _ hloop.1 hloop.2 _ _
      · simp only [engineRun, hrun, hpipe, hres, List.cons_append]

/-- C9 amended witness: the successful run of `pipe1` starts its
committed logs at the reset line and only ever appends from there, each
step line committed before its handler runs. -/
theorem engine_logs_committed_append_only_witness :
    (logsTraceOf (engineRun execOk db1 1 7 clk dt0).events).head?
      = some "Starting pipeline execution...\n"
    ∧ List.Chain' LogStep (logsTraceOf (engineRun execOk db1 1 7 clk dt0).events)
    ∧ ∃ (loopEvs : List (EngineEvent Nat)) (snapF : RunSnapshot),
        (engineRun execOk db1 1 7 clk dt0).events
          = EngineEvent.commit ⟨"running", some "Starting pipeline execution...\n",
              run1.completed_at⟩ :: (loopEvs ++ [EngineEvent.commit snapF, EngineEvent.commit snapF])
        ∧ StepsLogged loopEvs :=
  engine_logs_committed_append_only execOk db1 1 7 clk dt0 run1 rfl

/-- C8: `run_step(step_order, override)` with the pipeline and step
resolved selects its input context exactly as specified: order 0 runs on
the empty context; a positive order runs on the cached snapshot of
`step_order - 1` when it exists; when that snapshot is missing the call
fails with the previous-step error — unless the step is
`extraction`-typed, which runs on the empty context instead. -/
theorem run_step_context_selection
    (exec : Step → Ctx α → Except String (Ctx α)) (db : DB) (cache : StepCache α)
    (pid so : Nat) (ov : Option StepOverride) (p : Pipeline) (step : Step)
    (hp : db.pipelines.find? (fun q => q.id == pid) = some p)
    (hs : resolveStep p so ov = some step) :
    (so = 0 → runStep exec db cache pid so ov = execAndCache exec cache pid so step [])
    ∧ (∀ (k : Nat) (c : Ctx α), so = k + 1 → cacheLookup cache pid k = some c →
        runStep exec db cache pid so ov = execAndCache exec cache pid so step c)
    ∧ (∀ k : Nat, so = k + 1 → cacheLookup cache pid k = none →
        step.step_type ≠ "extraction" →
        runStep exec db cache pid so ov
          = Except.error "Previous step output not found. Please run previous steps first.")
    ∧ (∀ k : Nat, so = k + 1 → cacheLookup cache pid k = none →
        step.step_type = "extraction" →
        runStep exec db cache pid so ov = execAndCache exec cache pid so step []) := by
  refine ⟨?_, ?_, ?_, ?_⟩
  · intro h0
    subst h0
    simp only [runStep, hp, hs, loadInputContext]
    rfl
  · intro k c hso hc
    subst hso
    simp only [runStep, hp, hs, loadInputContext, Nat.add_sub_cancel, hc]
    simp [Nat.succ_pos]
  · intro k hso hc hext
    subst hso
    simp only [runStep, hp, hs, loadInputContext, Nat.add_sub_cancel, hc]
    simp [Nat.succ_pos, hext]
  · intro k hso hc hext
    subst hso
    simp only [runStep, hp, hs, loadInputContext, Nat.add_sub_cancel, hc]
    simp [Nat.succ_pos, hext]

/-- C8 witness: invoking `run_step(1)` for the `training`-typed step of
`pipe1` with an empty cache (step 0 never tested) fails with the
previous-step error, while `run_step(0)` runs the extraction step on
the empty context. -/
theorem run_step_context_selection_witness :
    (runStep execOk db1 ([] : StepCache Nat) 1 1 none
      = Except.error "Previous step output not found. Please run previous steps first.")
    ∧ runStep execOk db1 ([] : StepCache Nat) 1 0 none
      = execAndCache execOk [] 1 0 stepA [] :=
  ⟨(run_step_context_selection execOk db1 [] 1 1 none pipe1 stepB rfl rfl).2.2.1 0 rfl rfl
      (by decide),
   (run_step_context_selection execOk db1 [] 1 0 none pipe1 stepA rfl rfl).1 rfl⟩
